import Mathlib

/-!
Verification of the task-queue core of the buildy build system
(src/lib/queue.js), against its natural-language specification.

The embedding below translates `Queue` from src/lib/queue.js into Lean.
JavaScript values that matter to the claims (runner state: a primitive
string or an array) are modelled by `JSVal`, with arrays represented as
references into an explicit `Heap` so that sharing of mutable identity
is observable.  The asynchronous completion signals delivered through
the per-dispatch promise EventEmitter are modelled by a list of
`Signal`s consumed one per dispatched task (exactly-once delivery, which
is the runner contract); running out of signals models a runner that
never signals, leaving the queue permanently dispatched.  JavaScript
exceptions (TypeError on property access of `undefined`) are modelled by
`Except`.
-/

/-- A JavaScript value as far as the queue core observes it: a primitive
string, or an array, represented by a reference (address) into a heap so
that shared mutable identity can be stated. -/
inductive JSVal where
  | str : String → JSVal
  | arr : Nat → JSVal
deriving DecidableEq, Repr

/-- The array heap: address `a` holds the element list of the array at `a`. -/
abbrev Heap := List (List JSVal)

/-- The `instanceof Object` test of src/lib/queue.js line 127: arrays are
Objects, primitive strings are not. -/
def JSVal.isObject : JSVal → Bool
  | .str _ => false
  | .arr _ => true

/-- Semantics of `Array.prototype.slice()` with no arguments: allocate a
fresh array whose element list is the same as the original (a one-level,
shallow copy; the elements themselves are shared). -/
def heapSlice (h : Heap) (a : Nat) : Heap × Nat :=
  (h ++ [(h[a]?).getD []], h.length)

/-- Addresses reachable from a value through array elements, with fuel
(the heap is finite, so fuel `h.length` visits everything reachable). -/
def reachableAddrs (h : Heap) : Nat → JSVal → List Nat
  | _, .str _ => []
  | 0, .arr a => [a]
  | fuel + 1, .arr a => a :: ((h[a]?).getD []).foldr (fun v acc => reachableAddrs h fuel v ++ acc) []

/-- Two values share mutable identity when some array address is reachable
from both of them. -/
def sharesMutable (h : Heap) (v w : JSVal) : Bool :=
  (reachableAddrs h h.length v).any fun a => (reachableAddrs h h.length w).contains a

/-- The reserved control task type handled inside the core. -/
def taskTypeFork : String := "fork"

/-- Identifier of a continuation function in a fork specification. -/
abbrev ContId := Nat

/-- The `spec` field of a task record: either an opaque configuration
value, or (for the fork control task) a Fork Specification, a hash of
child-queue name to continuation function.  `Object.keys` iteration order
is the entry order of the list; keys of a JS object are distinct. -/
inductive Spec where
  | data : JSVal → Spec
  | forkspec : List (String × ContId) → Spec
deriving DecidableEq, Repr

/-- A task record `{type: type, spec: spec}` as pushed by `Queue.prototype.task`. -/
structure TaskRec where
  type : String
  spec : Spec
deriving DecidableEq, Repr

/-- Modelled from the spec: `./buildy.js` is not under src/, only queue.js
is.  Per spec sections 4.2 and 4.3 the runner (a Buildy object) carries a
current output state (`_state`, read at src/lib/queue.js line 127) and a
current task-type tag (`_type`, read at line 129), and
`Buildy.factory(type, state)` (line 133) constructs a runner holding that
type tag and state. -/
structure Buildy where
  state : JSVal
  btype : String
deriving DecidableEq, Repr

/-- Modelled from the spec: constructs a Buildy runner from a task-type
tag and a state value (src/lib/queue.js line 133 `Buildy.factory`). -/
def Buildy.factory (btype : String) (state : JSVal) : Buildy :=
  { state := state, btype := btype }

/-- Events emitted by a Queue, with the payload fields of
src/lib/queue.js (`taskStarted` lines 174-179, `taskComplete` lines
218-222, `taskFailed` lines 240-244, `queueComplete` lines 200-202).
A stack entry or a task payload can be `undefined` in JS, hence the
`Option`s. -/
inductive Event where
  | taskStarted (queue : String) (stack : List (Option String)) (position : Nat) (type : String)
  | taskComplete (queue : String) (task : Option TaskRec) (result : JSVal)
  | taskFailed (queue : String) (task : Option TaskRec) (result : JSVal)
  | queueComplete (queue : String)
deriving DecidableEq, Repr

/-- The one-shot completion signal a runner sends on the promise
EventEmitter: `complete` with a result or `failed` with an error
(src/lib/queue.js lines 161-166). -/
inductive Signal where
  | complete : JSVal → Signal
  | failed : JSVal → Signal
deriving DecidableEq, Repr

/-- Discriminator for success signals. -/
def Signal.isComplete : Signal → Bool
  | .complete _ => true
  | .failed _ => false

/-- The Queue object state (constructor at src/lib/queue.js lines 34-42):
name, task list, cursor, ancestry stack, the currently bound runner
(`undefined` before the first non-fork dispatch), and the opaque options.
The `_promise` EventEmitter is modelled by the `Signal` list consumed by
`run`. -/
structure Queue where
  _name : String
  _queue : List TaskRec
  _queuePosition : Nat
  _queueStack : List (Option String)
  _runner : Option Buildy
  _options : Option JSVal
deriving DecidableEq, Repr

/-- The constructor `function Queue(name, options)` (src/lib/queue.js
lines 34-42): empty task list, cursor 0, empty stack; `_runner` is not a
declared property, so it reads as `undefined`.  `_initOptions` stores the
options. -/
def Queue.init (name : String) (options : Option JSVal) : Queue :=
  { _name := name, _queue := [], _queuePosition := 0, _queueStack := [],
    _runner := none, _options := options }

/-- `Queue.prototype.task` (src/lib/queue.js lines 108-111): push a task
record and return the queue for chaining. -/
def Queue.task (q : Queue) (type : String) (spec : Spec) : Queue :=
  { q with _queue := q._queue ++ [{ type := type, spec := spec }] }

/-- One invocation `forkspec[qName].call(q, childWorker)`
(src/lib/queue.js line 137): which continuation was invoked, the child
Queue it is bound to as `this`, and the child worker it receives. -/
structure ForkCall where
  contId : ContId
  childQueue : Queue
  childWorker : Buildy
deriving DecidableEq, Repr

/-- JavaScript exceptions the embedded code can raise. -/
inductive RunError where
  /-- Reading `.type` of `undefined`: `run` invoked with the cursor past
  the end of the task list (src/lib/queue.js line 155; the explicit
  `t === undefined` check at line 170 is dead code, line 155 throws
  first). -/
  | readTypeOfUndefined
  /-- Reading `._state` of `undefined`: `_fork` invoked while no runner
  is bound (src/lib/queue.js line 127). -/
  | stateOfUndefined
  /-- Calling `.exec` on `undefined`: a non-fork dispatch with no runner
  (src/lib/queue.js line 183). -/
  | execOfUndefined
  /-- `Object.keys` applied to a non-object fork spec (src/lib/queue.js
  line 131). -/
  | forkSpecInvalid
deriving DecidableEq, Repr

/-- The observable outcome of a (possibly multi-task) `run`: the final
queue state, the heap, the events emitted in order, the continuation
invocations made by `_fork`, the `(type, spec)` dispatches forwarded to
`runner.exec` in order, and the unconsumed completion signals. -/
structure RunResult where
  queue : Queue
  heap : Heap
  events : List Event
  forks : List ForkCall
  execs : List TaskRec
  rest : List Signal
deriving DecidableEq, Repr

/-- Prepend events emitted before a nested call's events. -/
def RunResult.withEvents (es : List Event) (r : RunResult) : RunResult :=
  { r with events := es ++ r.events }

/-- Record one dispatch to `runner.exec`: the `taskStarted` event emitted
at src/lib/queue.js lines 174-179 and the exec invocation at line 183,
both happening before whatever the nested completion handling produces. -/
def dispatchResult (started : Event) (t : TaskRec) :
    Except RunError RunResult → Except RunError RunResult
  | .error e => .error e
  | .ok r => .ok { r with events := started :: r.events, execs := t :: r.execs }

/-- Prepend events onto a fallible result. -/
def exceptWithEvents (es : List Event) :
    Except RunError RunResult → Except RunError RunResult
  | .error e => .error e
  | .ok r => .ok (r.withEvents es)

/-- The `_name` property of the JavaScript global object.  Inside the
`forEach` callback `eachFork` of src/lib/queue.js line 131-138 the code
runs in non-strict mode with no `thisArg`, so `this` is the global
object, whose `_name` property is never assigned: it is `undefined`. -/
def globalThisName : Option String := none

/-- Translation of `Queue.prototype._fork` (src/lib/queue.js lines
124-139).  Reads `this._runner._state` (throws if no runner is bound),
takes a one-level shallow copy of the state when it is an Object
(`.slice()`), computed once before the loop; then for each key of the
fork spec constructs a child Queue named by the key, pushes `this._name`
onto its stack (`this` being the global object, this pushes `undefined`;
the line copying the parent's own stack is commented out in the source),
and invokes the continuation with the child Queue and a worker built by
`Buildy.factory` from the parent runner's type tag and the single shared
state snapshot. -/
def Queue._fork (q : Queue) (spec : Spec) (h : Heap) :
    Except RunError (Heap × List ForkCall) :=
  match q._runner with
  | none => .error RunError.stateOfUndefined
  | some runner =>
    let hs : Heap × JSVal :=
      match runner.state with
      | JSVal.arr a => ((heapSlice h a).1, JSVal.arr (heapSlice h a).2)
      | v => (h, v)
    match spec with
    | Spec.data _ => .error RunError.forkSpecInvalid
    | Spec.forkspec fs =>
      .ok (hs.1, fs.map fun nc =>
        { contId := nc.2,
          childQueue :=
            { Queue.init nc.1 q._options with _queueStack := [globalThisName] },
          childWorker := Buildy.factory runner.btype hs.2 })

/-- Translation of `Queue.prototype._onTaskFailed` (src/lib/queue.js
lines 238-246): emit `taskFailed` and stop — `next()` is not called, the
remaining signals are left unconsumed and the cursor does not move. -/
def Queue._onTaskFailed (q : Queue) (h : Heap) (err : JSVal)
    (rest : List Signal) : RunResult :=
  { queue := q, heap := h,
    events := [Event.taskFailed q._name (q._queue[q._queuePosition]?) err],
    forks := [], execs := [], rest := rest }

mutual

/-- Translation of `Queue.prototype.run` (src/lib/queue.js lines
151-185).  Reads the task at the cursor (reading `.type` of `undefined`
throws when the cursor is out of range); a fork task is expanded by
`_fork` without binding the runner, without emitting events and without
touching the signals; otherwise the runner is bound, `taskStarted` is
emitted, the task is forwarded to `runner.exec`, and the single
completion signal of this dispatch is handled by `_onTaskComplete` or
`_onTaskFailed`. -/
def Queue.run (q : Queue) (runner : Option Buildy) (h : Heap)
    (signals : List Signal) : Except RunError RunResult :=
  match q._queue[q._queuePosition]? with
  | none => .error RunError.readTypeOfUndefined
  | some t =>
    if t.type == taskTypeFork then
      match Queue._fork q t.spec h with
      | .error e => .error e
      | .ok (h', calls) =>
        .ok { queue := q, heap := h', events := [], forks := calls,
              execs := [], rest := signals }
    else
      match runner with
      | none => .error RunError.execOfUndefined
      | some _ =>
        match signals with
        | [] =>
          .ok { queue := { q with _runner := runner }, heap := h,
                events := [Event.taskStarted q._name q._queueStack q._queuePosition t.type],
                forks := [], execs := [t], rest := [] }
        | Signal.complete result :: rest =>
          dispatchResult (Event.taskStarted q._name q._queueStack q._queuePosition t.type) t
            (Queue._onTaskComplete { q with _runner := runner } h result rest)
        | Signal.failed err :: rest =>
          dispatchResult (Event.taskStarted q._name q._queueStack q._queuePosition t.type) t
            (.ok (Queue._onTaskFailed { q with _runner := runner } h err rest))
  termination_by (signals.length, 0)

/-- Translation of `Queue.prototype._onTaskComplete` (src/lib/queue.js
lines 216-226): emit `taskComplete` with the task currently at the
cursor, then call `next()`. -/
def Queue._onTaskComplete (q : Queue) (h : Heap) (result : JSVal)
    (rest : List Signal) : Except RunError RunResult :=
  exceptWithEvents [Event.taskComplete q._name (q._queue[q._queuePosition]?) result]
    (Queue.next q h rest)
  termination_by (rest.length, 2)

/-- Translation of `Queue.prototype.next` (src/lib/queue.js lines
193-205): unconditionally increment the cursor; if it is still within
bounds re-invoke `run` with the stored runner, otherwise emit
`queueComplete`. -/
def Queue.next (q : Queue) (h : Heap) (rest : List Signal) :
    Except RunError RunResult :=
  if q._queuePosition + 1 < q._queue.length then
    Queue.run { q with _queuePosition := q._queuePosition + 1 }
      q._runner h rest
  else
    .ok { queue := { q with _queuePosition := q._queuePosition + 1 }, heap := h,
          events := [Event.queueComplete q._name], forks := [], execs := [],
          rest := rest }
  termination_by (rest.length, 1)

end

/-! Auxiliary definitions used to state the claims. -/

/-- Discriminator for `taskStarted` events. -/
def Event.isTaskStarted : Event → Bool
  | .taskStarted _ _ _ _ => true
  | _ => false

/-- Discriminator for `taskComplete` events. -/
def Event.isTaskComplete : Event → Bool
  | .taskComplete _ _ _ => true
  | _ => false

/-- Discriminator for `queueComplete` events. -/
def Event.isQueueComplete : Event → Bool
  | .queueComplete _ => true
  | _ => false

/-- The event trace produced by a chain of successful dispatches starting
at position `pos`: for each result, a `taskStarted` for the task at the
cursor followed by its `taskComplete`, in task order. -/
def successTrace (name : String) (stack : List (Option String))
    (tasks : List TaskRec) (pos : Nat) (results : List JSVal) : List Event :=
  match results with
  | [] => []
  | r :: rs =>
    match tasks[pos]? with
    | none => []
    | some t =>
      Event.taskStarted name stack pos t.type ::
      Event.taskComplete name (some t) r ::
      successTrace name stack tasks (pos + 1) rs

/-! Step lemmas: one unfolding of the execution cycle. -/

/-- Invoking `run` with the cursor at or past the end of the task list
throws (reading `.type` of `undefined`). -/
theorem run_past_end (q : Queue) (runner : Option Buildy) (h : Heap)
    (signals : List Signal) (hp : q._queue.length ≤ q._queuePosition) :
    Queue.run q runner h signals = .error RunError.readTypeOfUndefined := by
  rw [Queue.run]
  rw [List.getElem?_eq_none hp]

/-- Invoking `run` on a fork task while no runner is bound throws
(reading `._state` of `undefined` inside `_fork`). -/
theorem run_fork_unbound (q : Queue) (runner : Option Buildy) (h : Heap)
    (signals : List Signal) (t : TaskRec)
    (ht : q._queue[q._queuePosition]? = some t)
    (htype : t.type = taskTypeFork) (hrun : q._runner = none) :
    Queue.run q runner h signals = .error RunError.stateOfUndefined := by
  rw [Queue.run, ht]
  simp [htype, Queue._fork, hrun]

/-- Invoking `run` on a fork task with a runner bound expands the fork
spec without emitting events, without touching the runner argument, the
exec interface or the signals. -/
theorem run_fork_bound (q : Queue) (runner : Option Buildy) (h : Heap)
    (signals : List Signal) (t : TaskRec) (fs : List (String × ContId)) (rn : Buildy)
    (ht : q._queue[q._queuePosition]? = some t)
    (htype : t.type = taskTypeFork) (hspec : t.spec = Spec.forkspec fs)
    (hrun : q._runner = some rn) :
    Queue.run q runner h signals =
      .ok { queue := q,
            heap := (match rn.state with
                     | JSVal.arr a => (heapSlice h a).1
                     | _ => h),
            events := [],
            forks := fs.map fun nc =>
              { contId := nc.2,
                childQueue :=
                  { Queue.init nc.1 q._options with _queueStack := [globalThisName] },
                childWorker :=
                  Buildy.factory rn.btype
                    (match rn.state with
                     | JSVal.arr a => JSVal.arr (heapSlice h a).2
                     | v => v) },
            execs := [], rest := signals } := by
  rw [Queue.run, ht]
  simp only [htype, beq_self_eq_true, if_pos]
  rw [Queue._fork, hrun]
  simp only [hspec]
  cases hstate : rn.state <;> simp [hstate]

/-- Dispatching a non-fork task with no signal ever delivered: the task
is forwarded to exec, `taskStarted` is emitted, and nothing else happens
(the queue stays dispatched forever). -/
theorem run_dispatch_nosignal (q : Queue) (r : Buildy) (h : Heap) (t : TaskRec)
    (ht : q._queue[q._queuePosition]? = some t) (hf : t.type ≠ taskTypeFork) :
    Queue.run q (some r) h [] =
      .ok { queue := { q with _runner := some r }, heap := h,
            events := [Event.taskStarted q._name q._queueStack q._queuePosition t.type],
            forks := [], execs := [t], rest := [] } := by
  rw [Queue.run, ht]
  simp [hf]

/-- Dispatching a non-fork task whose signal is a success: `taskStarted`
is emitted, the task is forwarded to exec, and the success handler takes
over with the runner bound. -/
theorem run_dispatch_success (q : Queue) (r : Buildy) (h : Heap) (t : TaskRec)
    (result : JSVal) (rest : List Signal)
    (ht : q._queue[q._queuePosition]? = some t) (hf : t.type ≠ taskTypeFork) :
    Queue.run q (some r) h (Signal.complete result :: rest) =
      dispatchResult (Event.taskStarted q._name q._queueStack q._queuePosition t.type) t
        (Queue._onTaskComplete { q with _runner := some r } h result rest) := by
  rw [Queue.run, ht]
  simp [hf]

/-- Dispatching a non-fork task whose signal is a failure: `taskStarted`
then `taskFailed` are emitted, the cursor does not move, and the
remaining signals are left unconsumed. -/
theorem run_dispatch_failed (q : Queue) (r : Buildy) (h : Heap) (t : TaskRec)
    (err : JSVal) (rest : List Signal)
    (ht : q._queue[q._queuePosition]? = some t) (hf : t.type ≠ taskTypeFork) :
    Queue.run q (some r) h (Signal.failed err :: rest) =
      .ok { queue := { q with _runner := some r }, heap := h,
            events := [Event.taskStarted q._name q._queueStack q._queuePosition t.type,
                       Event.taskFailed q._name (some t) err],
            forks := [], execs := [t], rest := rest } := by
  rw [Queue.run, ht]
  simp [hf, dispatchResult, Queue._onTaskFailed, ht]

/-- The success handler emits `taskComplete` for the task at the cursor
and advances via `next`. -/
theorem onTaskComplete_eq (q : Queue) (h : Heap) (result : JSVal)
    (rest : List Signal) :
    Queue._onTaskComplete q h result rest =
      exceptWithEvents [Event.taskComplete q._name (q._queue[q._queuePosition]?) result]
        (Queue.next q h rest) := by
  rw [Queue._onTaskComplete]

/-- Advancing while the incremented cursor is still within bounds
re-invokes `run` with the stored runner. -/
theorem next_within (q : Queue) (h : Heap) (rest : List Signal)
    (hlt : q._queuePosition + 1 < q._queue.length) :
    Queue.next q h rest =
      Queue.run { q with _queuePosition := q._queuePosition + 1 } q._runner h rest := by
  rw [Queue.next]
  simp [hlt]

/-- Advancing when the incremented cursor reaches or passes the end of
the task list: the cursor still moves up by one and `queueComplete` is
emitted — on every such call. -/
theorem next_at_end (q : Queue) (h : Heap) (rest : List Signal)
    (hge : ¬ q._queuePosition + 1 < q._queue.length) :
    Queue.next q h rest =
      .ok { queue := { q with _queuePosition := q._queuePosition + 1 }, heap := h,
            events := [Event.queueComplete q._name], forks := [], execs := [],
            rest := rest } := by
  rw [Queue.next]
  simp [hge]

/-- Invoking `run` on a fork task whose spec is not an object throws in
`Object.keys`. -/
theorem run_fork_badspec (q : Queue) (runner : Option Buildy) (h : Heap)
    (signals : List Signal) (t : TaskRec) (v : JSVal) (rn : Buildy)
    (ht : q._queue[q._queuePosition]? = some t)
    (htype : t.type = taskTypeFork) (hspec : t.spec = Spec.data v)
    (hrun : q._runner = some rn) :
    Queue.run q runner h signals = .error RunError.forkSpecInvalid := by
  rw [Queue.run, ht]
  simp only [htype, beq_self_eq_true, if_pos]
  rw [Queue._fork, hrun]
  simp only [hspec]

/-- Dispatching a non-fork task with an undefined runner throws when
`exec` is called on `undefined`. -/
theorem run_dispatch_norunner (q : Queue) (h : Heap) (signals : List Signal)
    (t : TaskRec)
    (ht : q._queue[q._queuePosition]? = some t) (hf : t.type ≠ taskTypeFork) :
    Queue.run q none h signals = .error RunError.execOfUndefined := by
  rw [Queue.run, ht]
  simp [hf]

/-- The cursor index of a present task is within bounds. -/
theorem getElem?_some_lt {α : Type} {l : List α} {i : Nat} {a : α}
    (h : l[i]? = some a) : i < l.length := by
  by_contra hc
  rw [List.getElem?_eq_none (by omega)] at h
  exact Option.noConfusion h

/-- Inversion for `dispatchResult`. -/
theorem dispatchResult_ok_iff (st : Event) (t : TaskRec)
    (x : Except RunError RunResult) (res : RunResult) :
    dispatchResult st t x = .ok res ↔
      ∃ r1, x = .ok r1 ∧
        res = { r1 with events := st :: r1.events, execs := t :: r1.execs } := by
  cases x with
  | error e => simp [dispatchResult]
  | ok r1 =>
    simp only [dispatchResult, Except.ok.injEq]
    constructor
    · intro he
      exact ⟨r1, rfl, he.symm⟩
    · rintro ⟨r2, hr2, rfl⟩
      cases hr2
      rfl

/-- Inversion for `exceptWithEvents`. -/
theorem exceptWithEvents_ok_iff (es : List Event)
    (x : Except RunError RunResult) (res : RunResult) :
    exceptWithEvents es x = .ok res ↔
      ∃ r1, x = .ok r1 ∧ res = r1.withEvents es := by
  cases x with
  | error e => simp [exceptWithEvents]
  | ok r1 =>
    simp only [exceptWithEvents, Except.ok.injEq]
    constructor
    · intro he
      exact ⟨r1, rfl, he.symm⟩
    · rintro ⟨r2, hr2, rfl⟩
      cases hr2
      rfl

/-- Master invariant of one `run` invocation that returns normally: the
task list and name are unchanged; the cursor never moves backwards and
never passes the end of the task list; the cursor ends at the end of the
task list exactly when `queueComplete` was emitted; and the cursor
advances by exactly one per consumed success signal, while a consumed
failure signal and a fork expansion leave it unchanged. -/
theorem run_ok_inv (signals : List Signal) :
    ∀ (q : Queue) (runner : Option Buildy) (h : Heap) (res : RunResult),
      Queue.run q runner h signals = .ok res →
      res.queue._queue = q._queue ∧
      res.queue._name = q._name ∧
      q._queuePosition ≤ res.queue._queuePosition ∧
      res.queue._queuePosition ≤ q._queue.length ∧
      (res.queue._queuePosition = q._queue.length ↔
        Event.queueComplete q._name ∈ res.events) ∧
      ∃ consumed, signals = consumed ++ res.rest ∧
        res.queue._queuePosition =
          q._queuePosition + consumed.countP Signal.isComplete := by
  induction signals with
  | nil =>
    intro q runner h res hrun
    rcases hq : q._queue[q._queuePosition]? with _ | t
    · have hp : q._queue.length ≤ q._queuePosition := by
        by_contra hc
        rw [List.getElem?_eq_getElem (by omega)] at hq
        exact Option.noConfusion hq
      rw [run_past_end q runner h [] hp] at hrun
      exact Except.noConfusion hrun
    · have hpos : q._queuePosition < q._queue.length := getElem?_some_lt hq
      by_cases hft : t.type = taskTypeFork
      · rcases hr : q._runner with _ | rn
        · rw [run_fork_unbound q runner h [] t hq hft hr] at hrun
          exact Except.noConfusion hrun
        · rcases hsp : t.spec with v | fs
          · rw [run_fork_badspec q runner h [] t v rn hq hft hsp hr] at hrun
            exact Except.noConfusion hrun
          · rw [run_fork_bound q runner h [] t fs rn hq hft hsp hr] at hrun
            simp only [Except.ok.injEq] at hrun
            subst hrun
            refine ⟨rfl, rfl, Nat.le_refl _, Nat.le_of_lt hpos, ?_, [], rfl, rfl⟩
            constructor
            · intro he
              have h2 : q._queuePosition = q._queue.length := he
              omega
            · intro hm
              exact absurd hm (List.not_mem_nil _)
      · rcases runner with _ | r
        · rw [run_dispatch_norunner q h [] t hq hft] at hrun
          exact Except.noConfusion hrun
        · rw [run_dispatch_nosignal q r h t hq hft] at hrun
          simp only [Except.ok.injEq] at hrun
          subst hrun
          refine ⟨rfl, rfl, Nat.le_refl _, Nat.le_of_lt hpos, ?_, [], rfl, rfl⟩
          constructor
          · intro he
            have h2 : q._queuePosition = q._queue.length := he
            omega
          · intro hm
            have h2 : Event.queueComplete q._name ∈
                [Event.taskStarted q._name q._queueStack q._queuePosition t.type] := hm
            simp at h2
  | cons sig rest ih =>
    intro q runner h res hrun
    rcases hq : q._queue[q._queuePosition]? with _ | t
    · have hp : q._queue.length ≤ q._queuePosition := by
        by_contra hc
        rw [List.getElem?_eq_getElem (by omega)] at hq
        exact Option.noConfusion hq
      rw [run_past_end q runner h (sig :: rest) hp] at hrun
      exact Except.noConfusion hrun
    · have hpos : q._queuePosition < q._queue.length := getElem?_some_lt hq
      by_cases hft : t.type = taskTypeFork
      · rcases hr : q._runner with _ | rn
        · rw [run_fork_unbound q runner h (sig :: rest) t hq hft hr] at hrun
          exact Except.noConfusion hrun
        · rcases hsp : t.spec with v | fs
          · rw [run_fork_badspec q runner h (sig :: rest) t v rn hq hft hsp hr] at hrun
            exact Except.noConfusion hrun
          · rw [run_fork_bound q runner h (sig :: rest) t fs rn hq hft hsp hr] at hrun
            simp only [Except.ok.injEq] at hrun
            subst hrun
            refine ⟨rfl, rfl, Nat.le_refl _, Nat.le_of_lt hpos, ?_, [], rfl, rfl⟩
            constructor
            · intro he
              have h2 : q._queuePosition = q._queue.length := he
              omega
            · intro hm
              exact absurd hm (List.not_mem_nil _)
      · rcases runner with _ | r
        · rw [run_dispatch_norunner q h (sig :: rest) t hq hft] at hrun
          exact Except.noConfusion hrun
        · rcases sig with v | e
          · rw [run_dispatch_success q r h t v rest hq hft] at hrun
            rw [dispatchResult_ok_iff] at hrun
            obtain ⟨r1, hx, rfl⟩ := hrun
            rw [onTaskComplete_eq] at hx
            rw [exceptWithEvents_ok_iff] at hx
            obtain ⟨r2, hx2, rfl⟩ := hx
            by_cases hlt : q._queuePosition + 1 < q._queue.length
            · rw [next_within _ h rest (by simpa using hlt)] at hx2
              obtain ⟨e1, e2, e3, e4, e5, c1, hc1, hc2⟩ := ih _ _ _ _ hx2
              have e1h : r2.queue._queue = q._queue := by simpa using e1
              have e2h : r2.queue._name = q._name := by simpa using e2
              have e3h : q._queuePosition + 1 ≤ r2.queue._queuePosition := by simpa using e3
              have e4h : r2.queue._queuePosition ≤ q._queue.length := by simpa using e4
              have e5h : r2.queue._queuePosition = q._queue.length ↔
                  Event.queueComplete q._name ∈ r2.events := by simpa using e5
              have hc2h : r2.queue._queuePosition =
                  q._queuePosition + 1 + List.countP Signal.isComplete c1 := by simpa using hc2
              refine ⟨e1h, e2h, Nat.le_trans (Nat.le_succ _) e3h, e4h, ?_,
                      Signal.complete v :: c1, ?_, ?_⟩
              · show r2.queue._queuePosition = q._queue.length ↔
                    Event.queueComplete q._name ∈
                      Event.taskStarted q._name q._queueStack q._queuePosition t.type ::
                        Event.taskComplete q._name (q._queue[q._queuePosition]?) v :: r2.events
                rw [e5h]
                simp
              · show Signal.complete v :: rest = (Signal.complete v :: c1) ++ r2.rest
                rw [List.cons_append, hc1]
              · show r2.queue._queuePosition =
                    q._queuePosition + List.countP Signal.isComplete (Signal.complete v :: c1)
                rw [List.countP_cons]
                simp only [Signal.isComplete, if_pos]
                omega
            · rw [next_at_end _ h rest (by simpa using hlt)] at hx2
              simp only [Except.ok.injEq] at hx2
              subst hx2
              refine ⟨rfl, rfl, Nat.le_succ _, ?_, ?_, [Signal.complete v], rfl, ?_⟩
              · show q._queuePosition + 1 ≤ q._queue.length
                omega
              · constructor
                · intro _
                  show Event.queueComplete q._name ∈
                      Event.taskStarted q._name q._queueStack q._queuePosition t.type ::
                        Event.taskComplete q._name (q._queue[q._queuePosition]?) v ::
                          [Event.queueComplete q._name]
                  simp
                · intro _
                  show q._queuePosition + 1 = q._queue.length
                  omega
              · show q._queuePosition + 1 =
                    q._queuePosition + List.countP Signal.isComplete [Signal.complete v]
                rw [List.countP_cons]
                simp [Signal.isComplete]
          · rw [run_dispatch_failed q r h t e rest hq hft] at hrun
            simp only [Except.ok.injEq] at hrun
            subst hrun
            refine ⟨rfl, rfl, Nat.le_refl _, Nat.le_of_lt hpos, ?_, [Signal.failed e], rfl, ?_⟩
            · constructor
              · intro he2
                have h2 : q._queuePosition = q._queue.length := he2
                omega
              · intro hm
                have h2 : Event.queueComplete q._name ∈
                    [Event.taskStarted q._name q._queueStack q._queuePosition t.type,
                     Event.taskFailed q._name (some t) e] := hm
                simp at h2
            · show q._queuePosition =
                  q._queuePosition + List.countP Signal.isComplete [Signal.failed e]
              rw [List.countP_cons]
              simp [Signal.isComplete]

/-- A task found at the cursor belongs to the task list. -/
theorem mem_of_getElem?_some {α : Type} {l : List α} {i : Nat} {a : α}
    (h : l[i]? = some a) : a ∈ l := by
  have hlt := getElem?_some_lt h
  rw [List.getElem?_eq_getElem hlt] at h
  cases h
  exact List.getElem_mem hlt

/-- One full success cycle in the middle of the queue, in constructor
normal form: dispatch at the cursor, success handling, advance, and
re-dispatch of the following task. -/
theorem run_cycle_within (q : Queue) (r : Buildy) (h : Heap) (t : TaskRec)
    (v : JSVal) (rest : List Signal)
    (ht : q._queue[q._queuePosition]? = some t) (hf : t.type ≠ taskTypeFork)
    (hlt : q._queuePosition + 1 < q._queue.length) :
    Queue.run q (some r) h (Signal.complete v :: rest) =
      dispatchResult (Event.taskStarted q._name q._queueStack q._queuePosition t.type) t
        (exceptWithEvents [Event.taskComplete q._name (some t) v]
          (Queue.run { q with _runner := some r, _queuePosition := q._queuePosition + 1 }
            (some r) h rest)) := by
  rw [run_dispatch_success q r h t v rest ht hf, onTaskComplete_eq]
  rw [next_within _ h rest (by simpa using hlt)]
  rw [show ({ q with _runner := some r } : Queue)._queue[({ q with _runner := some r } : Queue)._queuePosition]? = some t from ht]

/-- One full success cycle on the last task of the queue, in constructor
normal form: dispatch, success handling, and terminal `queueComplete`. -/
theorem run_cycle_last (q : Queue) (r : Buildy) (h : Heap) (t : TaskRec)
    (v : JSVal) (rest : List Signal)
    (ht : q._queue[q._queuePosition]? = some t) (hf : t.type ≠ taskTypeFork)
    (hge : ¬ q._queuePosition + 1 < q._queue.length) :
    Queue.run q (some r) h (Signal.complete v :: rest) =
      .ok { queue := { q with _runner := some r, _queuePosition := q._queuePosition + 1 },
            heap := h,
            events := [Event.taskStarted q._name q._queueStack q._queuePosition t.type,
                       Event.taskComplete q._name (some t) v,
                       Event.queueComplete q._name],
            forks := [], execs := [t], rest := rest } := by
  rw [run_dispatch_success q r h t v rest ht hf, onTaskComplete_eq]
  rw [next_at_end _ h rest (by simpa using hge)]
  rw [show ({ q with _runner := some r } : Queue)._queue[({ q with _runner := some r } : Queue)._queuePosition]? = some t from ht]
  rfl

/-- An all-success run from any in-bounds cursor position: when the
remaining signals are exactly one success per remaining task, the queue
runs to completion, emitting the canonical alternating trace followed by
a single `queueComplete`, forwarding exactly the remaining tasks to exec
in order, and consuming every signal. -/
theorem run_all_success (results : List JSVal) :
    ∀ (q : Queue) (r : Buildy) (h : Heap),
      q._queuePosition + results.length = q._queue.length →
      q._queuePosition < q._queue.length →
      (∀ t ∈ q._queue, t.type ≠ taskTypeFork) →
      Queue.run q (some r) h (results.map Signal.complete) =
        .ok { queue := { q with _runner := some r, _queuePosition := q._queue.length },
              heap := h,
              events := successTrace q._name q._queueStack q._queue q._queuePosition results ++
                        [Event.queueComplete q._name],
              forks := [],
              execs := q._queue.drop q._queuePosition,
              rest := [] } := by
  induction results with
  | nil =>
    intro q r h hlen hpos hnf
    exfalso
    simp at hlen
    omega
  | cons v rs ih =>
    intro q r h hlen hpos hnf
    have hget : q._queue[q._queuePosition]? = some (q._queue[q._queuePosition]) :=
      List.getElem?_eq_getElem hpos
    have hft : (q._queue[q._queuePosition]).type ≠ taskTypeFork :=
      hnf _ (List.getElem_mem hpos)
    have hdrop : q._queue.drop q._queuePosition =
        q._queue[q._queuePosition] :: q._queue.drop (q._queuePosition + 1) :=
      List.drop_eq_getElem_cons hpos
    have hst : successTrace q._name q._queueStack q._queue q._queuePosition (v :: rs) =
        Event.taskStarted q._name q._queueStack q._queuePosition (q._queue[q._queuePosition]).type ::
        Event.taskComplete q._name (some (q._queue[q._queuePosition])) v ::
        successTrace q._name q._queueStack q._queue (q._queuePosition + 1) rs := by
      conv_lhs => rw [successTrace]
      rw [hget]
    simp only [List.length_cons] at hlen
    simp only [List.map_cons]
    by_cases hlt : q._queuePosition + 1 < q._queue.length
    · rw [run_cycle_within q r h _ v _ hget hft hlt]
      have hrec := ih { q with _runner := some r, _queuePosition := q._queuePosition + 1 } r h
        (by show q._queuePosition + 1 + rs.length = q._queue.length; omega)
        (by show q._queuePosition + 1 < q._queue.length; exact hlt)
        (by intro u hu; exact hnf u hu)
      rw [hrec]
      rw [hst, hdrop]
      rfl
    · have hrs : rs = [] := List.eq_nil_of_length_eq_zero (by omega)
      subst hrs
      have hp1 : q._queuePosition + 1 = q._queue.length := by omega
      simp only [List.map_nil]
      rw [run_cycle_last q r h _ v _ hget hft hlt]
      rw [hst, hdrop]
      rw [show successTrace q._name q._queueStack q._queue (q._queuePosition + 1) [] = [] from rfl]
      rw [show q._queue.drop (q._queuePosition + 1) = [] from List.drop_eq_nil_of_le (by omega)]
      rw [show ({ q with _runner := some r, _queuePosition := q._queuePosition + 1 } : Queue) =
          { q with _runner := some r, _queuePosition := q._queue.length } from by rw [hp1]]
      rfl

/-- A run whose first signals are successes and whose next signal is a
failure: the successful prefix produces the canonical trace, the failing
task emits `taskStarted` then `taskFailed`, the cursor stops at the
failing task, no `queueComplete` fires, and the signals after the failure
are never consumed (the queue halts). -/
theorem run_success_then_fail (results : List JSVal) :
    ∀ (q : Queue) (r : Buildy) (h : Heap) (err : JSVal) (extra : List Signal) (t : TaskRec),
      q._queue[q._queuePosition + results.length]? = some t →
      q._queuePosition + results.length < q._queue.length →
      (∀ i u, i ≤ q._queuePosition + results.length → q._queue[i]? = some u →
        u.type ≠ taskTypeFork) →
      Queue.run q (some r) h (results.map Signal.complete ++ Signal.failed err :: extra) =
        .ok { queue := { q with _runner := some r, _queuePosition := q._queuePosition + results.length },
              heap := h,
              events := successTrace q._name q._queueStack q._queue q._queuePosition results ++
                        [Event.taskStarted q._name q._queueStack
                           (q._queuePosition + results.length) t.type,
                         Event.taskFailed q._name (some t) err],
              forks := [],
              execs := (q._queue.drop q._queuePosition).take (results.length + 1),
              rest := extra } := by
  induction results with
  | nil =>
    intro q r h err extra t ht hk hnf
    simp only [List.length_nil, Nat.add_zero] at ht hk ⊢
    have hft : t.type ≠ taskTypeFork := hnf _ _ (Nat.le_refl _) ht
    have hdrop : q._queue.drop q._queuePosition =
        q._queue[q._queuePosition] :: q._queue.drop (q._queuePosition + 1) :=
      List.drop_eq_getElem_cons hk
    have hgetel : q._queue[q._queuePosition] = t := by
      rw [List.getElem?_eq_getElem hk] at ht
      exact Option.some.inj ht
    simp only [List.map_nil, List.nil_append]
    rw [run_dispatch_failed q r h t err extra ht hft]
    rw [hdrop, hgetel]
    rfl
  | cons v rs ih =>
    intro q r h err extra t ht hk hnf
    simp only [List.length_cons] at ht hk ⊢
    have hpos : q._queuePosition < q._queue.length := by omega
    have hget : q._queue[q._queuePosition]? = some (q._queue[q._queuePosition]) :=
      List.getElem?_eq_getElem hpos
    have hft : (q._queue[q._queuePosition]).type ≠ taskTypeFork :=
      hnf _ _ (by omega) hget
    have hlt : q._queuePosition + 1 < q._queue.length := by omega
    have hdrop : q._queue.drop q._queuePosition =
        q._queue[q._queuePosition] :: q._queue.drop (q._queuePosition + 1) :=
      List.drop_eq_getElem_cons hpos
    have hst : successTrace q._name q._queueStack q._queue q._queuePosition (v :: rs) =
        Event.taskStarted q._name q._queueStack q._queuePosition (q._queue[q._queuePosition]).type ::
        Event.taskComplete q._name (some (q._queue[q._queuePosition])) v ::
        successTrace q._name q._queueStack q._queue (q._queuePosition + 1) rs := by
      conv_lhs => rw [successTrace]
      rw [hget]
    have harith : q._queuePosition + (rs.length + 1) = q._queuePosition + 1 + rs.length := by
      omega
    rw [harith] at ht ⊢
    simp only [List.map_cons, List.cons_append]
    rw [run_cycle_within q r h _ v _ hget hft hlt]
    have hrec := ih { q with _runner := some r, _queuePosition := q._queuePosition + 1 } r h
      err extra t
      (by show q._queue[q._queuePosition + 1 + rs.length]? = some t; exact ht)
      (by show q._queuePosition + 1 + rs.length < q._queue.length; omega)
      (by
        intro i u hi hu
        have hi2 : i ≤ q._queuePosition + 1 + rs.length := hi
        exact hnf i u (by simp only [List.length_cons]; omega) hu)
    rw [hrec]
    rw [hst, hdrop]
    rfl

/-- The canonical success trace contains one `taskStarted` per result. -/
theorem successTrace_count_started (name : String) (stack : List (Option String))
    (tasks : List TaskRec) (results : List JSVal) :
    ∀ pos, pos + results.length ≤ tasks.length →
      (successTrace name stack tasks pos results).countP Event.isTaskStarted =
        results.length := by
  induction results with
  | nil => intro pos hle; rfl
  | cons v rs ih =>
    intro pos hle
    simp only [List.length_cons] at hle
    have hpos : pos < tasks.length := by omega
    rw [successTrace, List.getElem?_eq_getElem hpos]
    simp only [List.countP_cons, Event.isTaskStarted]
    rw [ih (pos + 1) (by omega)]
    simp [List.length_cons]

/-- The canonical success trace contains one `taskComplete` per result. -/
theorem successTrace_count_complete (name : String) (stack : List (Option String))
    (tasks : List TaskRec) (results : List JSVal) :
    ∀ pos, pos + results.length ≤ tasks.length →
      (successTrace name stack tasks pos results).countP Event.isTaskComplete =
        results.length := by
  induction results with
  | nil => intro pos hle; rfl
  | cons v rs ih =>
    intro pos hle
    simp only [List.length_cons] at hle
    have hpos : pos < tasks.length := by omega
    rw [successTrace, List.getElem?_eq_getElem hpos]
    simp only [List.countP_cons, Event.isTaskComplete]
    rw [ih (pos + 1) (by omega)]
    simp [List.length_cons]

/-- The canonical success trace contains no `queueComplete`. -/
theorem successTrace_count_queueComplete (name : String) (stack : List (Option String))
    (tasks : List TaskRec) (results : List JSVal) :
    ∀ pos,
      (successTrace name stack tasks pos results).countP Event.isQueueComplete = 0 := by
  induction results with
  | nil => intro pos; rfl
  | cons v rs ih =>
    intro pos
    rw [successTrace]
    rcases hget : tasks[pos]? with _ | t
    · rfl
    · simp only [List.countP_cons, Event.isQueueComplete]
      rw [ih (pos + 1)]
      simp

/-- Positions of `taskStarted` events in the canonical success trace are
below `pos + results.length`. -/
theorem successTrace_started_lt (name : String) (stack : List (Option String))
    (tasks : List TaskRec) (results : List JSVal) :
    ∀ pos nm st p ty, Event.taskStarted nm st p ty ∈ successTrace name stack tasks pos results →
      p < pos + results.length := by
  induction results with
  | nil =>
    intro pos nm st p ty hm
    exact absurd hm (List.not_mem_nil _)
  | cons v rs ih =>
    intro pos nm st p ty hm
    rw [successTrace] at hm
    rcases hget : tasks[pos]? with _ | t
    · rw [hget] at hm
      exact absurd hm (List.not_mem_nil _)
    · rw [hget] at hm
      simp only [List.mem_cons] at hm
      rcases hm with h1 | h2 | h3
      · have hp : p = pos := by
          simp only [Event.taskStarted.injEq] at h1
          exact h1.2.2.1
        simp only [List.length_cons]
        omega
      · exact absurd h2 (by simp)
      · have := ih (pos + 1) nm st p ty h3
        simp only [List.length_cons]
        omega

/-! Concrete fixtures used by witnesses and counterexamples. -/

/-- Task type of the file-listing task. -/
def tyFiles : String := "files"

/-- Task type of the concatenation task. -/
def tyConcat : String := "concat"

/-- Task type of the write task. -/
def tyWrite : String := "write"

/-- Name of the example queue. -/
def nBuild : String := "build"

/-- Name of the first forked child queue. -/
def nChildA : String := "debug"

/-- Name of the second forked child queue. -/
def nChildB : String := "min"

/-- Name of the example grandparent queue. -/
def nGrand : String := "gp"

/-- Name of the example parent queue. -/
def nParent : String := "p"

/-- An opaque task spec string. -/
def sSpec : String := "x"

/-- First task result. -/
def sR1 : String := "r1"

/-- Second task result. -/
def sR2 : String := "r2"

/-- Third task result. -/
def sR3 : String := "r3"

/-- An error message. -/
def sErr : String := "e"

/-- A runner output state string. -/
def sState : String := "s"

/-- An opaque task spec value. -/
def vSpec : JSVal := JSVal.str sSpec

/-- First task result value. -/
def vr1 : JSVal := JSVal.str sR1

/-- Second task result value. -/
def vr2 : JSVal := JSVal.str sR2

/-- Third task result value. -/
def vr3 : JSVal := JSVal.str sR3

/-- An error value. -/
def vErr : JSVal := JSVal.str sErr

/-- A runner output state value. -/
def vState : JSVal := JSVal.str sState

/-- An example runner with a primitive-string output state. -/
def wRunner : Buildy := Buildy.factory tyFiles vState

/-- A queue whose only task is a fork, never run before. -/
def qSingleFork : Queue :=
  (Queue.init nBuild none).task taskTypeFork (Spec.forkspec [(nChildA, 0), (nChildB, 1)])

/-- A one-task queue, never run before. -/
def qOneW : Queue :=
  (Queue.init nBuild none).task tyFiles (Spec.data vSpec)

/-- The state of `qOneW` after a completed run (cursor at the end,
runner bound). -/
def qDoneW : Queue :=
  { qOneW with _queuePosition := 1, _runner := some wRunner }

/-! Claim theorems. -/

/-- Claim C9: for every Queue, calling run when the cursor indexes past
the end of the task list (an empty or exhausted queue) raises an error
(reading `.type` of `undefined` at src/lib/queue.js line 155) rather than
silently doing nothing or dispatching. -/
theorem claim9_run_out_of_range_throws (q : Queue) (runner : Option Buildy)
    (h : Heap) (signals : List Signal)
    (hp : q._queue.length ≤ q._queuePosition) :
    Queue.run q runner h signals = .error RunError.readTypeOfUndefined :=
  run_past_end q runner h signals hp

/-- Witness for C9: running a freshly constructed empty queue throws. -/
theorem claim9_witness :
    (Queue.init nBuild none)._queue.length ≤ (Queue.init nBuild none)._queuePosition ∧
    Queue.run (Queue.init nBuild none) (some wRunner) [] [] =
      .error RunError.readTypeOfUndefined :=
  ⟨by decide, claim9_run_out_of_range_throws (Queue.init nBuild none) (some wRunner) [] [] (by decide)⟩

/-- Claim C10: for every Queue whose current task is a fork, if no
non-fork task was dispatched earlier (so `_runner` is still undefined),
calling run with a runner argument throws: the runner argument is bound
only on the non-fork dispatch path, so `_fork` reads `_state` of the
unbound (`undefined`) runner instead of the runner just passed to run. -/
theorem claim10_fork_unbound_runner_throws (q : Queue) (r : Buildy) (h : Heap)
    (signals : List Signal) (t : TaskRec)
    (ht : q._queue[q._queuePosition]? = some t) (htype : t.type = taskTypeFork)
    (hrun : q._runner = none) :
    Queue.run q (some r) h signals = .error RunError.stateOfUndefined :=
  run_fork_unbound q (some r) h signals t ht htype hrun

/-- Witness for C10: a queue whose single task is a fork throws on its
first run even though a runner is passed. -/
theorem claim10_witness :
    qSingleFork._queue[qSingleFork._queuePosition]? =
      some { type := taskTypeFork, spec := Spec.forkspec [(nChildA, 0), (nChildB, 1)] } ∧
    qSingleFork._runner = none ∧
    Queue.run qSingleFork (some wRunner) [] [] = .error RunError.stateOfUndefined :=
  ⟨by decide, by decide,
   claim10_fork_unbound_runner_throws qSingleFork wRunner [] []
     { type := taskTypeFork, spec := Spec.forkspec [(nChildA, 0), (nChildB, 1)] }
     (by decide) (by decide) (by decide)⟩

/-- Counterexample to claim C5 as stated: calling next() with the cursor
already at the end of the task list is not a no-op (the cursor moves to
tasks.length + 1) and emits `queueComplete` again on every such call, so
`queueComplete` can fire twice for the same Queue. -/
theorem claim5_counterexample :
    Queue.next qDoneW [] [] =
      .ok { queue := { qDoneW with _queuePosition := 2 }, heap := [],
            events := [Event.queueComplete nBuild], forks := [], execs := [],
            rest := [] } ∧
    Queue.next { qDoneW with _queuePosition := 2 } [] [] =
      .ok { queue := { qDoneW with _queuePosition := 3 }, heap := [],
            events := [Event.queueComplete nBuild], forks := [], execs := [],
            rest := [] } := by
  constructor
  · rw [next_at_end qDoneW [] [] (by decide)]
    rfl
  · rw [next_at_end { qDoneW with _queuePosition := 2 } [] [] (by decide)]
    rfl

/-- Claim C5 as amended: calling next() when the cursor is at (or past)
the end of the task list increments the cursor past the end and emits
`queueComplete` once more on each such call; `queueComplete` fires only
once per run when next() is driven solely by the internal completion
handler (see C1), but an external next() call after completion re-emits
it. -/
theorem claim5_next_at_end (q : Queue) (h : Heap) (rest : List Signal)
    (hp : q._queue.length ≤ q._queuePosition) :
    Queue.next q h rest =
      .ok { queue := { q with _queuePosition := q._queuePosition + 1 }, heap := h,
            events := [Event.queueComplete q._name], forks := [], execs := [],
            rest := rest } :=
  next_at_end q h rest (by omega)

/-- Witness for the amended C5. -/
theorem claim5_witness :
    qDoneW._queue.length ≤ qDoneW._queuePosition ∧
    Queue.next qDoneW [] [] =
      .ok { queue := { qDoneW with _queuePosition := qDoneW._queuePosition + 1 }, heap := [],
            events := [Event.queueComplete qDoneW._name], forks := [], execs := [],
            rest := [] } :=
  ⟨by decide, claim5_next_at_end qDoneW [] [] (by decide)⟩

/-- The result of running the one-task queue `qOneW` with a single
success signal: started, completed, queue complete. -/
def resOneW : RunResult :=
  { queue := { qOneW with _queuePosition := 1, _runner := some wRunner },
    heap := [],
    events := [Event.taskStarted nBuild [] 0 tyFiles,
               Event.taskComplete nBuild (some { type := tyFiles, spec := Spec.data vSpec }) vr1,
               Event.queueComplete nBuild],
    forks := [], execs := [{ type := tyFiles, spec := Spec.data vSpec }], rest := [] }

/-- Concrete evaluation: running `qOneW` with one success signal yields
`resOneW`. -/
theorem run_qOneW_eq :
    Queue.run qOneW (some wRunner) [] [Signal.complete vr1] = .ok resOneW := by
  rw [run_cycle_last qOneW wRunner [] { type := tyFiles, spec := Spec.data vSpec } vr1 []
    (by decide) (by decide) (by decide)]
  rfl

/-- Counterexample to claim C4 as stated: the cursor is not always in
[0, tasks.length].  On a completed one-task queue (cursor 1 = length, a
state reached by a normal run), one public next() call produces a
reachable state whose cursor is 2, strictly above tasks.length = 1 —
and that very call emits `queueComplete` while leaving the cursor
different from tasks.length, so both the bound and the
position-equals-length-iff-completed equivalence fail. -/
theorem claim4_counterexample :
    Queue.next qDoneW [] [] =
      .ok { queue := { qDoneW with _queuePosition := 2 }, heap := [],
            events := [Event.queueComplete nBuild], forks := [], execs := [],
            rest := [] } ∧
    ({ qDoneW with _queuePosition := 2 } : Queue)._queue.length <
      ({ qDoneW with _queuePosition := 2 } : Queue)._queuePosition ∧
    Event.queueComplete nBuild ∈ [Event.queueComplete nBuild] ∧
    ({ qDoneW with _queuePosition := 2 } : Queue)._queuePosition ≠
      ({ qDoneW with _queuePosition := 2 } : Queue)._queue.length := by
  refine ⟨?_, by decide, by decide, by decide⟩
  rw [next_at_end qDoneW [] [] (by decide)]
  rfl

/-- Claim C4 as amended: during signal-driven execution — over every
normally returning run invocation — the cursor stays within
[0, tasks.length] (the lower bound holds because the cursor is a natural
number), and the cursor equals tasks.length exactly when the queue has
completed, i.e. when `queueComplete` was emitted during the run.  The
unrestricted claim fails: a public next() call on an already completed
queue pushes the cursor to tasks.length + 1 while re-emitting
`queueComplete` (see the counterexample and C5). -/
theorem claim4_position_bounds (q : Queue) (runner : Option Buildy) (h : Heap)
    (signals : List Signal) (res : RunResult)
    (hr : Queue.run q runner h signals = .ok res) :
    res.queue._queuePosition ≤ res.queue._queue.length ∧
    (res.queue._queuePosition = res.queue._queue.length ↔
      Event.queueComplete res.queue._name ∈ res.events) := by
  obtain ⟨e1, e2, e3, e4, e5, _⟩ := run_ok_inv signals q runner h res hr
  rw [e1, e2]
  exact ⟨e4, e5⟩

/-- Witness for C4. -/
theorem claim4_witness :
    Queue.run qOneW (some wRunner) [] [Signal.complete vr1] = .ok resOneW ∧
    (resOneW.queue._queuePosition ≤ resOneW.queue._queue.length ∧
     (resOneW.queue._queuePosition = resOneW.queue._queue.length ↔
       Event.queueComplete resOneW.queue._name ∈ resOneW.events)) :=
  ⟨run_qOneW_eq, claim4_position_bounds qOneW (some wRunner) [] [Signal.complete vr1] resOneW run_qOneW_eq⟩

/-- Claim C6: over any normally returning run, the cursor advances by
exactly one per consumed success signal and by nothing else: the final
cursor equals the initial cursor plus the number of success signals among
the consumed prefix of the signal list (so a consumed failure signal
contributes zero), and the failure handler itself never moves the
cursor. -/
theorem claim6_position_advance (q : Queue) (runner : Option Buildy) (h : Heap)
    (signals : List Signal) (res : RunResult)
    (hr : Queue.run q runner h signals = .ok res) :
    (∃ consumed, signals = consumed ++ res.rest ∧
      res.queue._queuePosition =
        q._queuePosition + consumed.countP Signal.isComplete) ∧
    (∀ (q2 : Queue) (h2 : Heap) (err : JSVal) (rest2 : List Signal),
      (Queue._onTaskFailed q2 h2 err rest2).queue._queuePosition = q2._queuePosition) := by
  obtain ⟨_, _, _, _, _, hc⟩ := run_ok_inv signals q runner h res hr
  exact ⟨hc, fun q2 h2 err rest2 => rfl⟩

/-- Witness for C6. -/
theorem claim6_witness :
    Queue.run qOneW (some wRunner) [] [Signal.complete vr1] = .ok resOneW ∧
    ((∃ consumed, [Signal.complete vr1] = consumed ++ resOneW.rest ∧
       resOneW.queue._queuePosition =
         qOneW._queuePosition + consumed.countP Signal.isComplete) ∧
     (∀ (q2 : Queue) (h2 : Heap) (err : JSVal) (rest2 : List Signal),
       (Queue._onTaskFailed q2 h2 err rest2).queue._queuePosition = q2._queuePosition)) :=
  ⟨run_qOneW_eq, claim6_position_advance qOneW (some wRunner) [] [Signal.complete vr1] resOneW run_qOneW_eq⟩

/-- A two-task queue whose second task is a fork with an empty fork
spec. -/
def qTwoFork : Queue :=
  ((Queue.init nBuild none).task tyFiles (Spec.data vSpec)).task taskTypeFork (Spec.forkspec [])

/-- The result of running `qTwoFork` with one success signal: only one
`taskStarted`/`taskComplete` pair and no `queueComplete`, although the
queue has two appended tasks and every dispatched task succeeded. -/
def resTwoFork : RunResult :=
  { queue := { qTwoFork with _runner := some wRunner, _queuePosition := 1 },
    heap := [],
    events := [Event.taskStarted nBuild [] 0 tyFiles,
               Event.taskComplete nBuild (some { type := tyFiles, spec := Spec.data vSpec }) vr1],
    forks := [], execs := [{ type := tyFiles, spec := Spec.data vSpec }], rest := [] }

/-- Counterexample to claim C1 as stated.  Two concrete inputs violate
it: (a) a Queue with N = 0 appended tasks (vacuously, every dispatched
task succeeds) throws on run and emits no `queueComplete` at all, so the
exactly-one-queueComplete part fails; (b) a Queue with N = 2 appended
tasks whose second task is a fork, where every dispatched task succeeds,
emits only 1 `taskStarted`, 1 `taskComplete` and 0 `queueComplete`
instead of 2, 2 and 1. -/
theorem claim1_counterexample :
    Queue.run (Queue.init nBuild none) (some wRunner) [] [] =
      .error RunError.readTypeOfUndefined ∧
    Queue.run qTwoFork (some wRunner) [] [Signal.complete vr1] = .ok resTwoFork ∧
    qTwoFork._queue.length = 2 ∧
    resTwoFork.events.countP Event.isTaskStarted = 1 ∧
    resTwoFork.events.countP Event.isTaskComplete = 1 ∧
    resTwoFork.events.countP Event.isQueueComplete = 0 := by
  refine ⟨run_past_end (Queue.init nBuild none) (some wRunner) [] [] (by decide),
          ?_, by decide, by decide, by decide, by decide⟩
  rw [run_cycle_within qTwoFork wRunner [] { type := tyFiles, spec := Spec.data vSpec } vr1 []
    (by decide) (by decide) (by decide)]
  rw [run_fork_bound
    { qTwoFork with _runner := some wRunner, _queuePosition := qTwoFork._queuePosition + 1 }
    (some wRunner) [] [] { type := taskTypeFork, spec := Spec.forkspec [] } [] wRunner
    (by decide) (by decide) (by decide) (by decide)]
  rfl

/-- Claim C1 as amended: for every Queue with N ≥ 1 appended tasks, none
of which is a fork task, started at cursor 0 with a runner, if every
dispatched task's signal is success then the emitted events are exactly
the canonical alternating trace — `taskStarted k` immediately followed by
`taskComplete k`, for k = 0..N-1 in task order, followed by a single
`queueComplete` — so exactly N `taskStarted`, N `taskComplete` and 1
`queueComplete` fire, and task k+1's `taskStarted` occurs only after task
k's `taskComplete` (the completion signal of task k is observed before
task k+1 is dispatched). -/
theorem claim1_all_success_events (q : Queue) (r : Buildy) (h : Heap)
    (results : List JSVal)
    (hpos : q._queuePosition = 0) (hlen : results.length = q._queue.length)
    (hne : q._queue ≠ []) (hnf : ∀ t ∈ q._queue, t.type ≠ taskTypeFork) :
    Queue.run q (some r) h (results.map Signal.complete) =
      .ok { queue := { q with _runner := some r, _queuePosition := q._queue.length },
            heap := h,
            events := successTrace q._name q._queueStack q._queue 0 results ++
                      [Event.queueComplete q._name],
            forks := [], execs := q._queue, rest := [] } ∧
    (successTrace q._name q._queueStack q._queue 0 results ++
      [Event.queueComplete q._name]).countP Event.isTaskStarted = results.length ∧
    (successTrace q._name q._queueStack q._queue 0 results ++
      [Event.queueComplete q._name]).countP Event.isTaskComplete = results.length ∧
    (successTrace q._name q._queueStack q._queue 0 results ++
      [Event.queueComplete q._name]).countP Event.isQueueComplete = 1 := by
  have hlen2 : q._queuePosition + results.length = q._queue.length := by
    rw [hpos]
    omega
  have hpos2 : q._queuePosition < q._queue.length := by
    rw [hpos]
    exact List.length_pos.mpr hne
  have main := run_all_success results q r h hlen2 hpos2 hnf
  rw [hpos, List.drop_zero] at main
  have hcount1 := successTrace_count_started q._name q._queueStack q._queue results 0 (by omega)
  have hcount2 := successTrace_count_complete q._name q._queueStack q._queue results 0 (by omega)
  have hcount3 := successTrace_count_queueComplete q._name q._queueStack q._queue results 0
  refine ⟨main, ?_, ?_, ?_⟩
  · rw [List.countP_append, hcount1]
    simp [List.countP_cons, Event.isTaskStarted]
  · rw [List.countP_append, hcount2]
    simp [List.countP_cons, Event.isTaskComplete]
  · rw [List.countP_append, hcount3]
    simp [List.countP_cons, Event.isQueueComplete]

/-- The three-task queue of the spec's scenario. -/
def qThreeW : Queue :=
  (((Queue.init nBuild none).task tyFiles (Spec.data vSpec)).task tyConcat
    (Spec.data vSpec)).task tyWrite (Spec.data vSpec)

/-- Witness for the amended C1: the three-task scenario queue with three
success signals. -/
theorem claim1_witness :
    (qThreeW._queuePosition = 0 ∧
     ([vr1, vr2, vr3] : List JSVal).length = qThreeW._queue.length ∧
     qThreeW._queue ≠ [] ∧
     (∀ t ∈ qThreeW._queue, t.type ≠ taskTypeFork)) ∧
    (Queue.run qThreeW (some wRunner) [] (List.map Signal.complete [vr1, vr2, vr3]) =
       .ok { queue := { qThreeW with _runner := some wRunner, _queuePosition := qThreeW._queue.length },
             heap := [],
             events := successTrace qThreeW._name qThreeW._queueStack qThreeW._queue 0 [vr1, vr2, vr3] ++
                       [Event.queueComplete qThreeW._name],
             forks := [], execs := qThreeW._queue, rest := [] } ∧
     (successTrace qThreeW._name qThreeW._queueStack qThreeW._queue 0 [vr1, vr2, vr3] ++
       [Event.queueComplete qThreeW._name]).countP Event.isTaskStarted = 3 ∧
     (successTrace qThreeW._name qThreeW._queueStack qThreeW._queue 0 [vr1, vr2, vr3] ++
       [Event.queueComplete qThreeW._name]).countP Event.isTaskComplete = 3 ∧
     (successTrace qThreeW._name qThreeW._queueStack qThreeW._queue 0 [vr1, vr2, vr3] ++
       [Event.queueComplete qThreeW._name]).countP Event.isQueueComplete = 1) :=
  ⟨⟨by decide, by decide, by decide, by decide⟩,
   claim1_all_success_events qThreeW wRunner [] [vr1, vr2, vr3]
     (by decide) (by decide) (by decide) (by decide)⟩

/-- Claim C2: for every Queue started at cursor 0 whose task at index
k = results.length receives a failure signal after k successes, the Queue
emits `taskFailed` for that task and halts permanently at cursor k: the
cursor stays at k, `next()` is not called (no `queueComplete`, and the
signals after the failure are returned unconsumed — nothing further is
dispatched even though more signals are available), and no `taskStarted`
event for index k + 1 is ever emitted. -/
theorem claim2_failure_halts (q : Queue) (r : Buildy) (h : Heap)
    (results : List JSVal) (err : JSVal) (extra : List Signal) (t : TaskRec)
    (hpos : q._queuePosition = 0)
    (ht : q._queue[results.length]? = some t)
    (hk : results.length < q._queue.length)
    (hnf : ∀ i u, i ≤ results.length → q._queue[i]? = some u →
      u.type ≠ taskTypeFork) :
    Queue.run q (some r) h (results.map Signal.complete ++ Signal.failed err :: extra) =
      .ok { queue := { q with _runner := some r, _queuePosition := results.length },
            heap := h,
            events := successTrace q._name q._queueStack q._queue 0 results ++
                      [Event.taskStarted q._name q._queueStack results.length t.type,
                       Event.taskFailed q._name (some t) err],
            forks := [], execs := q._queue.take (results.length + 1),
            rest := extra } ∧
    (∀ nm st ty, Event.taskStarted nm st (results.length + 1) ty ∉
       successTrace q._name q._queueStack q._queue 0 results ++
       [Event.taskStarted q._name q._queueStack results.length t.type,
        Event.taskFailed q._name (some t) err]) := by
  have ht' : q._queue[q._queuePosition + results.length]? = some t := by
    rw [hpos]
    simpa using ht
  have hk' : q._queuePosition + results.length < q._queue.length := by
    rw [hpos]
    simpa using hk
  have hnf' : ∀ i u, i ≤ q._queuePosition + results.length →
      q._queue[i]? = some u → u.type ≠ taskTypeFork := by
    intro i u hi hu
    exact hnf i u (by omega) hu
  have main := run_success_then_fail results q r h err extra t ht' hk' hnf'
  rw [hpos] at main
  simp only [Nat.zero_add, List.drop_zero] at main
  refine ⟨main, ?_⟩
  intro nm st ty hm
  rcases List.mem_append.mp hm with h1 | h2
  · have := successTrace_started_lt q._name q._queueStack q._queue results 0 nm st
      (results.length + 1) ty h1
    omega
  · simp only [List.mem_cons, List.not_mem_nil, or_false] at h2
    rcases h2 with h3 | h3
    · simp only [Event.taskStarted.injEq] at h3
      omega
    · exact absurd h3 (by simp)

/-- Witness for C2: the three-task scenario queue where the first task
succeeds and the second task fails, with one more (never consumed)
signal pending. -/
theorem claim2_witness :
    (qThreeW._queuePosition = 0 ∧
     qThreeW._queue[([vr1] : List JSVal).length]? =
       some { type := tyConcat, spec := Spec.data vSpec } ∧
     ([vr1] : List JSVal).length < qThreeW._queue.length) ∧
    (Queue.run qThreeW (some wRunner) []
       (List.map Signal.complete [vr1] ++ Signal.failed vErr :: [Signal.complete vr3]) =
       .ok { queue := { qThreeW with _runner := some wRunner, _queuePosition := 1 },
             heap := [],
             events := successTrace qThreeW._name qThreeW._queueStack qThreeW._queue 0 [vr1] ++
                       [Event.taskStarted qThreeW._name qThreeW._queueStack 1 tyConcat,
                        Event.taskFailed qThreeW._name
                          (some { type := tyConcat, spec := Spec.data vSpec }) vErr],
             forks := [], execs := qThreeW._queue.take 2,
             rest := [Signal.complete vr3] } ∧
     (∀ nm st ty, Event.taskStarted nm st 2 ty ∉
        successTrace qThreeW._name qThreeW._queueStack qThreeW._queue 0 [vr1] ++
        [Event.taskStarted qThreeW._name qThreeW._queueStack 1 tyConcat,
         Event.taskFailed qThreeW._name
           (some { type := tyConcat, spec := Spec.data vSpec }) vErr])) :=
  ⟨⟨by decide, by decide, by decide⟩,
   claim2_failure_halts qThreeW wRunner [] [vr1] vErr [Signal.complete vr3]
     { type := tyConcat, spec := Spec.data vSpec }
     (by decide) (by decide) (by decide)
     (fun i u _ hu =>
       (by decide : ∀ u ∈ qThreeW._queue, u.type ≠ taskTypeFork) u (mem_of_getElem?_some hu))⟩

/-- Fork spec with a single child for the C3 scenario. -/
def c3spec : Spec := Spec.forkspec [(nChildA, 0)]

/-- A parent queue named `p` with ancestry `[gp]`, a bound runner, and a
fork task. -/
def c3parent : Queue :=
  { _name := nParent, _queue := [{ type := taskTypeFork, spec := c3spec }],
    _queuePosition := 0, _queueStack := [some nGrand], _runner := some wRunner,
    _options := none }

/-- Claim C3 evaluated at the failing input (code bug): forking the
parent `p` (ancestry `[gp]`) produces a child whose `_queueStack` is
`[undefined]` — the global object's `_name` pushed onto a fresh empty
stack — instead of the documented parent ancestry plus parent name
`[gp, p]`.  Inside the `forEach` callback of `_fork` the source reads
`this._name` where `this` is the global object (`self._name` was
intended; `self` is used correctly for `_options` one line above), and
the line copying the parent's own stack is commented out. -/
theorem claim3_ancestry_bug :
    Queue._fork c3parent c3spec [] =
      .ok ([], [{ contId := 0,
                  childQueue := { Queue.init nChildA none with _queueStack := [globalThisName] },
                  childWorker := wRunner }]) ∧
    ({ Queue.init nChildA none with _queueStack := [globalThisName] } : Queue)._queueStack =
      [none] ∧
    ({ Queue.init nChildA none with _queueStack := [globalThisName] } : Queue)._queueStack ≠
      c3parent._queueStack ++ [some c3parent._name] := by
  refine ⟨rfl, rfl, by decide⟩

/-- Counterexample to claim C7 as stated: a Queue whose single task is a
fork with a two-entry Fork Specification does not create two child
Queues when run — it throws before creating any Queue or invoking any
continuation, because the runner is only bound on the non-fork dispatch
path and no non-fork task was dispatched earlier. -/
theorem claim7_counterexample :
    Queue.run qSingleFork (some wRunner) [] [] = .error RunError.stateOfUndefined :=
  run_fork_unbound qSingleFork (some wRunner) [] []
    { type := taskTypeFork, spec := Spec.forkspec [(nChildA, 0), (nChildB, 1)] }
    (by decide) (by decide) (by decide)

/-- Claim C7 as amended: for every Queue whose current task has type
'fork' with a Fork Specification of M entries, provided the Queue's
runner was bound by an earlier non-fork dispatch, run creates exactly M
new child Queues — one per map key, named by that key — and invokes each
continuation exactly once (the invocation list mirrors the spec's
entries one-for-one, in order); the fork task is never forwarded to the
runner's exec (no exec call is recorded), no event is emitted on the
parent, and no completion signal is consumed.  When the runner is
unbound, run throws instead (see C10). -/
theorem claim7_fork_expansion (q : Queue) (runner : Option Buildy) (h : Heap)
    (signals : List Signal) (t : TaskRec) (fs : List (String × ContId)) (rn : Buildy)
    (ht : q._queue[q._queuePosition]? = some t)
    (htype : t.type = taskTypeFork) (hspec : t.spec = Spec.forkspec fs)
    (hrun : q._runner = some rn) :
    ∃ h' calls,
      Queue.run q runner h signals =
        .ok { queue := q, heap := h', events := [], forks := calls, execs := [],
              rest := signals } ∧
      calls.length = fs.length ∧
      calls.map (fun c => c.childQueue._name) = fs.map Prod.fst ∧
      calls.map ForkCall.contId = fs.map Prod.snd := by
  refine ⟨_, _, run_fork_bound q runner h signals t fs rn ht htype hspec hrun, ?_, ?_, ?_⟩
  · simp
  · simp [Queue.init]
  · simp

/-- A queue whose first task (already completed) bound the runner and
whose current task is a two-entry fork. -/
def qMidFork : Queue :=
  { _name := nBuild,
    _queue := [{ type := tyFiles, spec := Spec.data vSpec },
               { type := taskTypeFork, spec := Spec.forkspec [(nChildA, 0), (nChildB, 1)] }],
    _queuePosition := 1, _queueStack := [], _runner := some wRunner, _options := none }

/-- Witness for the amended C7. -/
theorem claim7_witness :
    (qMidFork._queue[qMidFork._queuePosition]? =
       some { type := taskTypeFork, spec := Spec.forkspec [(nChildA, 0), (nChildB, 1)] } ∧
     qMidFork._runner = some wRunner) ∧
    (∃ h' calls,
      Queue.run qMidFork (some wRunner) [] [] =
        .ok { queue := qMidFork, heap := h', events := [], forks := calls, execs := [],
              rest := [] } ∧
      calls.length = ([(nChildA, 0), (nChildB, 1)] : List (String × ContId)).length ∧
      calls.map (fun c => c.childQueue._name) =
        ([(nChildA, 0), (nChildB, 1)] : List (String × ContId)).map Prod.fst ∧
      calls.map ForkCall.contId =
        ([(nChildA, 0), (nChildB, 1)] : List (String × ContId)).map Prod.snd) :=
  ⟨⟨by decide, by decide⟩,
   claim7_fork_expansion qMidFork (some wRunner) [] []
     { type := taskTypeFork, spec := Spec.forkspec [(nChildA, 0), (nChildB, 1)] }
     [(nChildA, 0), (nChildB, 1)] wRunner (by decide) (by decide) (by decide) (by decide)⟩

/-- An inner string for the nested-array heap. -/
def sInner : String := "y"

/-- A heap with a nested array: address 0 holds `[arr 1]`, address 1
holds `[str y]`. -/
def c8heap : Heap := [[JSVal.arr 1], [JSVal.str sInner]]

/-- A parent queue whose bound runner's state is the nested array at
address 0 of `c8heap`. -/
def c8parent : Queue :=
  { _name := nParent, _queue := [{ type := taskTypeFork, spec := Spec.forkspec [(nChildA, 0), (nChildB, 1)] }],
    _queuePosition := 0, _queueStack := [], _runner := some { state := JSVal.arr 0, btype := tyFiles },
    _options := none }

/-- Counterexample to claim C8 as stated: forking a parent whose runner
state is the nested array `arr 0` (with inner array `arr 1`) produces,
for both children, the very same snapshot `arr 2` — a single
`Array.prototype.slice()` copy computed once before the loop — whose
element list still references the parent's inner array `arr 1`.  So the
copy is shallow, not deep; the child state shares mutable identity with
the parent state (through address 1), and the two sibling branches
receive the identical snapshot array (address 2), sharing mutable
identity with each other. -/
theorem claim8_counterexample :
    Queue._fork c8parent (Spec.forkspec [(nChildA, 0), (nChildB, 1)]) c8heap =
      .ok (c8heap ++ [[JSVal.arr 1]],
           [{ contId := 0,
              childQueue := { Queue.init nChildA none with _queueStack := [globalThisName] },
              childWorker := { state := JSVal.arr 2, btype := tyFiles } },
            { contId := 1,
              childQueue := { Queue.init nChildB none with _queueStack := [globalThisName] },
              childWorker := { state := JSVal.arr 2, btype := tyFiles } }]) ∧
    sharesMutable (c8heap ++ [[JSVal.arr 1]]) (JSVal.arr 0) (JSVal.arr 2) = true ∧
    sharesMutable (c8heap ++ [[JSVal.arr 1]]) (JSVal.arr 2) (JSVal.arr 2) = true := by
  refine ⟨rfl, by decide, by decide⟩

/-- Claim C8 as amended: for every fork whose parent runner is bound
with an array state at address `a`, the runner-state snapshot is computed
once, by a one-level shallow copy (`Array.prototype.slice`): a single
fresh array address (`h.length`, distinct from every existing address,
in particular from `a`) whose element list is exactly the parent array's
element list (so nested values remain shared with the parent), and every
child's worker receives that same snapshot address together with the
parent runner's task-type tag. -/
theorem claim8_shallow_snapshot (q : Queue) (fs : List (String × ContId)) (h : Heap)
    (rn : Buildy) (a : Nat)
    (hr : q._runner = some rn) (hs : rn.state = JSVal.arr a) (ha : a < h.length) :
    ∃ calls,
      Queue._fork q (Spec.forkspec fs) h = .ok (h ++ [(h[a]?).getD []], calls) ∧
      calls.length = fs.length ∧
      (∀ c ∈ calls, c.childWorker.state = JSVal.arr h.length ∧
        c.childWorker.btype = rn.btype) ∧
      (h ++ [(h[a]?).getD []])[h.length]? = h[a]? ∧
      JSVal.arr h.length ≠ JSVal.arr a := by
  obtain ⟨nm, tasks, pos, stack, runner, opts⟩ := q
  obtain ⟨st, ty⟩ := rn
  simp only at hr hs
  subst hr
  subst hs
  refine ⟨_, rfl, ?_, ?_, ?_, ?_⟩
  · simp
  · intro c hc
    simp only [List.mem_map] at hc
    obtain ⟨nc, _, rfl⟩ := hc
    exact ⟨rfl, rfl⟩
  · rw [List.getElem?_concat_length]
    rw [List.getElem?_eq_getElem ha]
    simp [List.getElem?_eq_getElem ha]
  · simp
    omega

/-- Witness for the amended C8. -/
theorem claim8_witness :
    (c8parent._runner = some { state := JSVal.arr 0, btype := tyFiles } ∧
     ({ state := JSVal.arr 0, btype := tyFiles } : Buildy).state = JSVal.arr 0 ∧
     0 < c8heap.length) ∧
    (∃ calls,
      Queue._fork c8parent (Spec.forkspec [(nChildA, 0), (nChildB, 1)]) c8heap =
        .ok (c8heap ++ [(c8heap[0]?).getD []], calls) ∧
      calls.length = ([(nChildA, 0), (nChildB, 1)] : List (String × ContId)).length ∧
      (∀ c ∈ calls, c.childWorker.state = JSVal.arr c8heap.length ∧
        c.childWorker.btype = ({ state := JSVal.arr 0, btype := tyFiles } : Buildy).btype) ∧
      (c8heap ++ [(c8heap[0]?).getD []])[c8heap.length]? = c8heap[0]? ∧
      JSVal.arr c8heap.length ≠ JSVal.arr 0) :=
  ⟨⟨by decide, by decide, by decide⟩,
   claim8_shallow_snapshot c8parent [(nChildA, 0), (nChildB, 1)] c8heap
     { state := JSVal.arr 0, btype := tyFiles } 0 (by decide) (by decide) (by decide)⟩
